import Mathlib

/-!
Verification of the Backstage notifications store specification.

The data model (`Notification`, `NotificationPayload`, `NotificationStatus`) is
embedded from `plugins/notifications-common/src/types.ts`.  The select-value
mapping `handleOnUnreadOnlyChanged` is embedded from
`plugins/notifications/src/components/NotificationsFilters/NotificationsFilters.tsx`.
The store operations themselves (`DatabaseNotificationsStore`) are not among the
sources (only their test suite is), so they are modelled from the specification:
the store's table is a `List Notification`, timestamps are `Nat`, and "now" is
an explicit parameter.
-/

/-- From `types.ts`: `NotificationSeverity = 'critical' | 'high' | 'normal' | 'low'`. -/
inductive NotificationSeverity where
  | critical
  | high
  | normal
  | low
  deriving DecidableEq, Repr

/-- From `types.ts`: the notification payload shape. -/
structure NotificationPayload where
  title : String
  description : Option String
  link : Option String
  severity : NotificationSeverity
  topic : Option String
  scope : Option String
  icon : Option String
  deriving DecidableEq, Repr

/-- From `types.ts`: a persisted notification record.  Timestamps are `Nat`. -/
structure Notification where
  id : String
  user : String
  created : Nat
  saved : Option Nat
  read : Option Nat
  updated : Option Nat
  origin : String
  payload : NotificationPayload
  deriving DecidableEq, Repr

/-- From `types.ts`: `NotificationStatus` is a pair of unread/read counts. -/
structure NotificationStatus where
  unread : Nat
  read : Nat
  deriving DecidableEq, Repr

/-- Boolean prefix test on character lists. -/
def isPrefixB : List Char → List Char → Bool
  | [], _ => true
  | _ :: _, [] => false
  | a :: as, b :: bs => a == b && isPrefixB as bs

/-- Boolean substring (infix) test on character lists. -/
def isInfixB (pat : List Char) : List Char → Bool
  | [] => isPrefixB pat []
  | b :: bs => isPrefixB pat (b :: bs) || isInfixB pat bs

/-- Lower-cased characters of a string, for case-insensitive matching. -/
def lowerChars (s : String) : List Char := s.data.map Char.toLower

/-- Modelled from the spec: the search filter of `getNotifications` in
`DatabaseNotificationsStore` (absent from the sources) is a case-insensitive
substring match against the payload title and description (§4.2). -/
def matchesSearch (search : String) (p : NotificationPayload) : Bool :=
  isInfixB (lowerChars search) (lowerChars p.title) ||
    (match p.description with
     | some d => isInfixB (lowerChars search) (lowerChars d)
     | none => false)

/-- Modelled from the spec: the tri-state `read` filter — absent means any,
`true` means read timestamp non-null, `false` means read timestamp null (§4.1, §9). -/
def matchesRead (read : Option Bool) (n : Notification) : Bool :=
  match read with
  | none => true
  | some true => n.read.isSome
  | some false => n.read.isNone

/-- Modelled from the spec: the `createdAfter` lower bound of `getNotifications`;
the boundary is the one fixed by the spec's testable property (§8): a record with
`created == T` is excluded, i.e. the filter keeps `created > T`. -/
def matchesCreatedAfter (createdAfter : Option Nat) (n : Notification) : Bool :=
  match createdAfter with
  | none => true
  | some t => t < n.created

/-- Modelled from the spec: `getNotifications(user, filters)` of
`DatabaseNotificationsStore` (absent from the sources) — all filter predicates
combined conjunctively, results restricted to the given user (§4.1, §4.2). -/
def getNotifications (store : List Notification) (user : String)
    (read : Option Bool) (createdAfter : Option Nat) (search : Option String) :
    List Notification :=
  store.filter fun n =>
    n.user == user && matchesRead read n && matchesCreatedAfter createdAfter n &&
      (match search with
       | none => true
       | some s => matchesSearch s n.payload)

/-- Modelled from the spec: `getNotification(id)` — single-record lookup by
primary key, not scoped by user; not-found is a normal outcome (§4.1). -/
def getNotification (store : List Notification) (id : String) : Option Notification :=
  store.find? fun n => n.id == id

/-- Modelled from the spec: `getStatus(user)` — counts of the user's rows with
null `read` (unread) and non-null `read` (read) (§4.1, §4.3). -/
def getStatus (store : List Notification) (user : String) : NotificationStatus :=
  { unread := (store.filter fun n => n.user == user && n.read.isNone).length
    read := (store.filter fun n => n.user == user && n.read.isSome).length }

/-- Modelled from the spec: `getExistingScopeNotification({user, origin, scope})` —
look up the live record matching the (user, origin, scope) triple (§4.1). -/
def getExistingScopeNotification (store : List Notification)
    (user origin scope : String) : Option Notification :=
  store.find? fun n =>
    n.user == user && n.origin == origin && n.payload.scope == some scope

/-- Modelled from the spec: the per-record effect of
`restoreExistingNotification` — payload fields overwritten with the incoming
notification's payload, `updated` set to now, `read` reset to null; everything
else (id, user, origin, created, saved) untouched (§4.1). -/
def restoreRecord (r : Notification) (incoming : Notification) (now : Nat) :
    Notification :=
  { r with payload := incoming.payload, updated := some now, read := none }

/-- Modelled from the spec: `restoreExistingNotification({id, notification})` —
overwrites the record at `id` as described by `restoreRecord`; the updated record
it returns is recovered by `getNotification` on the result (§4.1). -/
def restoreExistingNotification (store : List Notification) (id : String)
    (incoming : Notification) (now : Nat) : List Notification :=
  store.map fun r => if r.id == id then restoreRecord r incoming now else r

/-- Modelled from the spec: `saveNotification(record)` — inserts when
`payload.scope` is null; otherwise looks up the live scoped record and delegates
to restore on a hit, inserting only on a miss (§4.1). -/
def saveNotification (store : List Notification) (n : Notification) (now : Nat) :
    List Notification :=
  match n.payload.scope with
  | none => store ++ [n]
  | some scope =>
    match getExistingScopeNotification store n.user n.origin scope with
    | some existing => restoreExistingNotification store existing.id n now
    | none => store ++ [n]

/-- Modelled from the spec: `markRead({ids, user})` — sets the `read` timestamp
on the listed records belonging to `user`; others are silently skipped (§4.1). -/
def markRead (store : List Notification) (ids : List String) (user : String)
    (now : Nat) : List Notification :=
  store.map fun r =>
    if ids.contains r.id && r.user == user then { r with read := some now } else r

/-- Modelled from the spec: `markUnread({ids, user})` — clears the `read`
timestamp on the listed records belonging to `user` (§4.1). -/
def markUnread (store : List Notification) (ids : List String) (user : String) :
    List Notification :=
  store.map fun r =>
    if ids.contains r.id && r.user == user then { r with read := none } else r

/-- Modelled from the spec: `markSaved({ids, user})` — sets the `saved`
timestamp on the listed records belonging to `user` (§4.1). -/
def markSaved (store : List Notification) (ids : List String) (user : String)
    (now : Nat) : List Notification :=
  store.map fun r =>
    if ids.contains r.id && r.user == user then { r with saved := some now } else r

/-- Modelled from the spec: `markUnsaved({ids, user})` — clears the `saved`
timestamp on the listed records belonging to `user` (§4.1). -/
def markUnsaved (store : List Notification) (ids : List String) (user : String) :
    List Notification :=
  store.map fun r =>
    if ids.contains r.id && r.user == user then { r with saved := none } else r

/-- From `NotificationsFilters.tsx`, `handleOnUnreadOnlyChanged`: the select
value is mapped to the tri-state `read` filter — starts at `undefined`, set to
`true` when the value is `'unread'`, then to `false` when it is `'read'`. -/
def handleOnUnreadOnlyChanged (v : String) : Option Bool :=
  let value : Option Bool := none
  let value := if v == "unread" then some true else value
  let value := if v == "read" then some false else value
  value

/-- The ids stored in the table. -/
def idsOf (store : List Notification) : List String := store.map fun n => n.id

/-- The table has pairwise distinct primary keys. -/
def NodupIds (store : List Notification) : Prop := (idsOf store).Nodup

/-- The live records of a (user, origin, scope) triple. -/
def scopedFilter (store : List Notification) (u o s : String) : List Notification :=
  store.filter fun n => n.user == u && n.origin == o && n.payload.scope == some s

/-- Scope-dedup invariant: at most one live record per (user, origin, non-null
scope) triple. -/
def ScopeUnique (store : List Notification) : Prop :=
  ∀ u o s, (scopedFilter store u o s).length ≤ 1

/-- Fold a sequence of `saveNotification` calls (each with its own "now") over a
store. -/
def applySaves (store : List Notification) (seq : List (Notification × Nat)) :
    List Notification :=
  seq.foldl (fun st p => saveNotification st p.1 p.2) store

/-- The payload of the test suite's `testNotification`. -/
def samplePayload : NotificationPayload :=
  { title := "Notification 1", description := none, link := some "/catalog",
    severity := NotificationSeverity.normal, topic := none, scope := none,
    icon := none }

/-- A concrete record owned by john.doe, as inserted by the test suite. -/
def sampleRecord : Notification :=
  { id := "id-1", user := "user:default/john.doe", created := 100, saved := none,
    read := some 5, updated := none, origin := "plugin-test",
    payload := samplePayload }

/-- A concrete incoming notification used in restore scenarios. -/
def incomingSample : Notification :=
  { id := "id-9", user := "user:default/john.doe", created := 200, saved := none,
    read := none, updated := none, origin := "plugin-test",
    payload := { samplePayload with title := "New notification" } }

theorem getNotification_map_of_id_eq (g : Notification → Notification)
    (hg : ∀ r, (g r).id = r.id) (st : List Notification) (i : String) :
    getNotification (st.map g) i = (getNotification st i).map g := by
  induction st with
  | nil => rfl
  | cons x rest ih =>
    by_cases hx : (x.id == i) = true
    · have hgx : ((g x).id == i) = true := by rw [hg]; exact hx
      simp only [getNotification, List.map_cons] at *
      rw [@List.find?_cons_of_pos _ (fun n => n.id == i) x rest hx,
        @List.find?_cons_of_pos _ (fun n => n.id == i) (g x) (List.map g rest) hgx]
      rfl
    · have hgx : ¬ ((g x).id == i) = true := by rw [hg]; exact hx
      simp only [getNotification, List.map_cons] at *
      rw [@List.find?_cons_of_neg _ (fun n => n.id == i) x rest hx,
        @List.find?_cons_of_neg _ (fun n => n.id == i) (g x) (List.map g rest) hgx, ih]

theorem getNotification_id_eq (st : List Notification) (i : String)
    (r : Notification) (h : getNotification st i = some r) : r.id = i := by
  unfold getNotification at h
  have hp := @List.find?_some _ (fun n => n.id == i) r st h
  exact eq_of_beq hp

theorem restore_lookup (st : List Notification) (i0 : String) (inc : Notification)
    (now : Nat) (i : String) :
    getNotification (restoreExistingNotification st i0 inc now) i =
      (getNotification st i).map fun r =>
        if r.id == i0 then restoreRecord r inc now else r := by
  apply getNotification_map_of_id_eq
  intro r
  by_cases h : (r.id == i0) = true <;> simp [h, restoreRecord]

/-- C2: for every existing record at `id`, `restoreExistingNotification`
overwrites the record's payload with the incoming notification's payload, sets
`updated` to the current time, resets `read` to null regardless of the prior
read state, and the updated record is what the store then holds at that id. -/
theorem restore_postcondition (st : List Notification) (i : String)
    (inc : Notification) (now : Nat) (r : Notification)
    (hfind : getNotification st i = some r) :
    getNotification (restoreExistingNotification st i inc now) i =
      some { r with payload := inc.payload, updated := some now, read := none } := by
  rw [restore_lookup, hfind]
  have hid : (r.id == i) = true := by
    rw [getNotification_id_eq st i r hfind]; exact beq_self_eq_true i
  simp [Option.map, hid, restoreRecord]

/-- C2 witness: the postcondition evaluated at a concrete one-record store. -/
theorem restore_postcondition_witness :
    getNotification [sampleRecord] "id-1" = some sampleRecord ∧
      getNotification
          (restoreExistingNotification [sampleRecord] "id-1" incomingSample 7)
          "id-1" =
        some { sampleRecord with
                payload := incomingSample.payload
                updated := some 7
                read := none } :=
  ⟨by decide,
    restore_postcondition [sampleRecord] "id-1" incomingSample 7 sampleRecord
      (by decide)⟩

/-- C9: restoration changes only payload, `updated`, and `read`; the record's
`saved`, `id`, `user`, `origin`, and `created` are untouched, records at other
ids survive unchanged, and no record is added or dropped. -/
theorem restore_frame_condition (st : List Notification) (i : String)
    (inc : Notification) (now : Nat) :
    (restoreExistingNotification st i inc now).length = st.length ∧
      (∀ r ∈ st, r.id ≠ i → r ∈ restoreExistingNotification st i inc now) ∧
      (∀ r ∈ st, r.id = i →
        restoreRecord r inc now ∈ restoreExistingNotification st i inc now) ∧
      (∀ r : Notification,
        (restoreRecord r inc now).id = r.id ∧
          (restoreRecord r inc now).user = r.user ∧
          (restoreRecord r inc now).origin = r.origin ∧
          (restoreRecord r inc now).created = r.created ∧
          (restoreRecord r inc now).saved = r.saved ∧
          (restoreRecord r inc now).payload = inc.payload ∧
          (restoreRecord r inc now).updated = some now ∧
          (restoreRecord r inc now).read = none) := by
  refine ⟨by simp [restoreExistingNotification], ?_, ?_, ?_⟩
  · intro r hr hne
    have hkeep : (if r.id == i then restoreRecord r inc now else r) = r := by
      simp [hne]
    simp only [restoreExistingNotification]
    exact List.mem_map.mpr ⟨r, hr, hkeep⟩
  · intro r hr heq
    have hrw : (if r.id == i then restoreRecord r inc now else r) =
        restoreRecord r inc now := by
      simp [heq]
    simp only [restoreExistingNotification]
    exact List.mem_map.mpr ⟨r, hr, hrw⟩
  · intro r
    exact ⟨rfl, rfl, rfl, rfl, rfl, rfl, rfl, rfl⟩

theorem markRead_lookup (st : List Notification) (ids : List String) (u : String)
    (now : Nat) (i : String) :
    getNotification (markRead st ids u now) i =
      (getNotification st i).map fun r =>
        if ids.contains r.id && r.user == u then { r with read := some now }
        else r := by
  unfold markRead
  apply getNotification_map_of_id_eq
  intro r
  split <;> rfl

theorem markUnread_lookup (st : List Notification) (ids : List String)
    (u : String) (i : String) :
    getNotification (markUnread st ids u) i =
      (getNotification st i).map fun r =>
        if ids.contains r.id && r.user == u then { r with read := none }
        else r := by
  unfold markUnread
  apply getNotification_map_of_id_eq
  intro r
  split <;> rfl

theorem markSaved_lookup (st : List Notification) (ids : List String)
    (u : String) (now : Nat) (i : String) :
    getNotification (markSaved st ids u now) i =
      (getNotification st i).map fun r =>
        if ids.contains r.id && r.user == u then { r with saved := some now }
        else r := by
  unfold markSaved
  apply getNotification_map_of_id_eq
  intro r
  split <;> rfl

theorem markUnsaved_lookup (st : List Notification) (ids : List String)
    (u : String) (i : String) :
    getNotification (markUnsaved st ids u) i =
      (getNotification st i).map fun r =>
        if ids.contains r.id && r.user == u then { r with saved := none }
        else r := by
  unfold markUnsaved
  apply getNotification_map_of_id_eq
  intro r
  split <;> rfl

theorem contains_of_mem (ids : List String) (a : String) (h : a ∈ ids) :
    ids.contains a = true := by
  rw [List.contains_eq_any_beq]
  exact List.any_eq_true.mpr ⟨a, h, beq_self_eq_true a⟩

theorem mem_of_contains (ids : List String) (a : String)
    (h : ids.contains a = true) : a ∈ ids := by
  rw [List.contains_eq_any_beq, List.any_eq_true] at h
  obtain ⟨x, hx, hbeq⟩ := h
  rw [eq_of_beq hbeq]
  exact hx

/-- C9 witness: frame condition applied at a concrete one-record store. -/
theorem restore_frame_condition_witness :
    sampleRecord ∈ ([sampleRecord] : List Notification) ∧
      sampleRecord.id = "id-1" ∧
      restoreRecord sampleRecord incomingSample 7 ∈
        restoreExistingNotification [sampleRecord] "id-1" incomingSample 7 :=
  ⟨List.mem_cons_self _ _, by decide,
    (restore_frame_condition [sampleRecord] "id-1" incomingSample 7).2.2.1
      sampleRecord (List.mem_cons_self _ _) (by decide)⟩

/-- C7: for a record owned by `user`, after `markRead({ids: [id], user})` the
record returned by `getNotification(id)` carries a non-null read timestamp, and
after the subsequent `markUnread({ids: [id], user})` it is null again. -/
theorem read_flag_roundtrip (st : List Notification) (i u : String) (t1 : Nat)
    (r : Notification) (hfind : getNotification st i = some r) (hu : r.user = u) :
    getNotification (markRead st [i] u t1) i = some { r with read := some t1 } ∧
      getNotification (markUnread (markRead st [i] u t1) [i] u) i =
        some { r with read := none } := by
  have hid : r.id = i := getNotification_id_eq st i r hfind
  have hcond : (([i] : List String).contains r.id && r.user == u) = true := by
    rw [hid, hu]
    simp
  have h1 : getNotification (markRead st [i] u t1) i =
      some { r with read := some t1 } := by
    rw [markRead_lookup, hfind]
    simp only [Option.map, hcond, if_true]
  refine ⟨h1, ?_⟩
  rw [markUnread_lookup, h1]
  have hcond2 :
      (([i] : List String).contains ({ r with read := some t1 } : Notification).id &&
        ({ r with read := some t1 } : Notification).user == u) = true := by
    simpa using hcond
  simp only [Option.map, hcond2, if_true]

/-- C7 witness: the round trip evaluated at a concrete one-record store. -/
theorem read_flag_roundtrip_witness :
    getNotification [sampleRecord] "id-1" = some sampleRecord ∧
      sampleRecord.user = "user:default/john.doe" ∧
      getNotification
          (markUnread (markRead [sampleRecord] ["id-1"] "user:default/john.doe" 9)
            ["id-1"] "user:default/john.doe") "id-1" =
        some { sampleRecord with read := none } :=
  ⟨by decide, by decide,
    (read_flag_roundtrip [sampleRecord] "id-1" "user:default/john.doe" 9
      sampleRecord (by decide) (by decide)).2⟩

/-- C10: the four bulk mark operations set or clear `read` respectively `saved`
exactly on the listed records owned by the given user; listed ids not owned by
the user, and ids not present at all, are silently skipped with the record (or
its absence) unchanged, and every operation is total and keeps the record
count. -/
theorem bulk_marks_ownership (st : List Notification) (ids : List String)
    (u : String) (now : Nat) (i : String) (r : Notification) :
    ((markRead st ids u now).length = st.length ∧
      (markUnread st ids u).length = st.length ∧
      (markSaved st ids u now).length = st.length ∧
      (markUnsaved st ids u).length = st.length) ∧
    (getNotification st i = some r → r.id ∈ ids → r.user = u →
      getNotification (markRead st ids u now) i =
          some { r with read := some now } ∧
        getNotification (markUnread st ids u) i = some { r with read := none } ∧
        getNotification (markSaved st ids u now) i =
          some { r with saved := some now } ∧
        getNotification (markUnsaved st ids u) i =
          some { r with saved := none }) ∧
    (getNotification st i = some r → (r.id ∉ ids ∨ r.user ≠ u) →
      getNotification (markRead st ids u now) i = some r ∧
        getNotification (markUnread st ids u) i = some r ∧
        getNotification (markSaved st ids u now) i = some r ∧
        getNotification (markUnsaved st ids u) i = some r) ∧
    (getNotification st i = none →
      getNotification (markRead st ids u now) i = none ∧
        getNotification (markUnread st ids u) i = none ∧
        getNotification (markSaved st ids u now) i = none ∧
        getNotification (markUnsaved st ids u) i = none) := by
  refine ⟨⟨by simp [markRead], by simp [markUnread], by simp [markSaved],
    by simp [markUnsaved]⟩, ?_, ?_, ?_⟩
  · intro hfind hmem hown
    have hcond : (ids.contains r.id && r.user == u) = true := by
      rw [contains_of_mem ids r.id hmem, hown]
      simp
    refine ⟨?_, ?_, ?_, ?_⟩
    · rw [markRead_lookup, hfind, Option.map_some', if_pos hcond]
    · rw [markUnread_lookup, hfind, Option.map_some', if_pos hcond]
    · rw [markSaved_lookup, hfind, Option.map_some', if_pos hcond]
    · rw [markUnsaved_lookup, hfind, Option.map_some', if_pos hcond]
  · intro hfind hcase
    have hncond : ¬ ((ids.contains r.id && r.user == u) = true) := by
      intro hc
      rw [Bool.and_eq_true] at hc
      rcases hcase with hnot | hne
      · exact hnot (mem_of_contains ids r.id hc.1)
      · exact hne (eq_of_beq hc.2)
    refine ⟨?_, ?_, ?_, ?_⟩
    · rw [markRead_lookup, hfind, Option.map_some', if_neg hncond]
    · rw [markUnread_lookup, hfind, Option.map_some', if_neg hncond]
    · rw [markSaved_lookup, hfind, Option.map_some', if_neg hncond]
    · rw [markUnsaved_lookup, hfind, Option.map_some', if_neg hncond]
  · intro hnone
    refine ⟨?_, ?_, ?_, ?_⟩
    · rw [markRead_lookup, hnone]; rfl
    · rw [markUnread_lookup, hnone]; rfl
    · rw [markSaved_lookup, hnone]; rfl
    · rw [markUnsaved_lookup, hnone]; rfl

/-- C10 witness: bulk marking evaluated at a concrete one-record store. -/
theorem bulk_marks_ownership_witness :
    getNotification [sampleRecord] "id-1" = some sampleRecord ∧
      sampleRecord.id ∈ ["id-1"] ∧
      sampleRecord.user = "user:default/john.doe" ∧
      getNotification
          (markSaved [sampleRecord] ["id-1"] "user:default/john.doe" 9) "id-1" =
        some { sampleRecord with saved := some 9 } :=
  ⟨by decide, by decide, by decide,
    ((bulk_marks_ownership [sampleRecord] ["id-1"] "user:default/john.doe" 9
        "id-1" sampleRecord).2.1 (by decide) (by decide) (by decide)).2.2.1⟩

theorem getNotifications_no_filters (st : List Notification) (u : String) :
    getNotifications st u none none none = st.filter fun n => n.user == u := by
  unfold getNotifications
  apply List.filter_congr
  intro x _
  simp [matchesRead, matchesCreatedAfter]

/-- C3: the `read` filter is tri-state — `true` keeps exactly the user's
records with a non-null read timestamp, `false` exactly those with a null one,
and absent keeps all of the user's records; in the filters UI the select value
`'unread'` maps to `true`, `'read'` to `false`, and any other value to
undefined. -/
theorem tri_state_read_filter (st : List Notification) (u : String)
    (n : Notification) (v : String) :
    (n ∈ getNotifications st u (some true) none none ↔
      n ∈ st ∧ n.user = u ∧ n.read ≠ none) ∧
    (n ∈ getNotifications st u (some false) none none ↔
      n ∈ st ∧ n.user = u ∧ n.read = none) ∧
    (n ∈ getNotifications st u none none none ↔ n ∈ st ∧ n.user = u) ∧
    handleOnUnreadOnlyChanged "unread" = some true ∧
    handleOnUnreadOnlyChanged "read" = some false ∧
    (v ≠ "unread" → v ≠ "read" → handleOnUnreadOnlyChanged v = none) := by
  refine ⟨?_, ?_, ?_, by decide, by decide, ?_⟩
  · unfold getNotifications
    rw [List.mem_filter]
    simp [matchesRead, matchesCreatedAfter, Option.isSome_iff_ne_none, and_assoc]
  · unfold getNotifications
    rw [List.mem_filter]
    simp [matchesRead, matchesCreatedAfter, Option.isNone_iff_eq_none, and_assoc]
  · rw [getNotifications_no_filters, List.mem_filter]
    simp
  · intro h1 h2
    unfold handleOnUnreadOnlyChanged
    simp [h1, h2]

/-- C3 witness: the UI mapping sends the select value `'all'` to the absent
filter. -/
theorem tri_state_read_filter_witness :
    ("all" : String) ≠ "unread" ∧ ("all" : String) ≠ "read" ∧
      handleOnUnreadOnlyChanged "all" = none :=
  ⟨by decide, by decide,
    (tri_state_read_filter [] "u" sampleRecord "all").2.2.2.2.2 (by decide)
      (by decide)⟩

/-- C4: `getNotifications(U, {})` returns only records owned by U, and the
result is unaffected by appending other users' records or by any change that
leaves U's records as they are. -/
theorem no_cross_user_leakage (st st2 others : List Notification) (u : String) :
    (∀ n ∈ getNotifications st u none none none, n.user = u) ∧
    ((∀ n ∈ others, n.user ≠ u) →
      getNotifications (st ++ others) u none none none =
        getNotifications st u none none none) ∧
    ((st.filter fun n => n.user == u) = (st2.filter fun n => n.user == u) →
      getNotifications st u none none none =
        getNotifications st2 u none none none) := by
  refine ⟨?_, ?_, ?_⟩
  · intro n hn
    rw [getNotifications_no_filters, List.mem_filter] at hn
    exact eq_of_beq hn.2
  · intro hothers
    rw [getNotifications_no_filters, getNotifications_no_filters,
      List.filter_append]
    have hnil : (others.filter fun n => n.user == u) = [] := by
      rw [List.filter_eq_nil_iff]
      intro a ha hbeq
      exact hothers a ha (eq_of_beq hbeq)
    rw [hnil, List.append_nil]
  · intro heq
    rw [getNotifications_no_filters, getNotifications_no_filters]
    exact heq

/-- A concrete record owned by a different user, as in the test suite. -/
def otherUserRecord : Notification :=
  { sampleRecord with id := "id-2", user := "user:default/jane.doe" }

/-- C4 witness: appending another user's record leaves john.doe's listing
unchanged. -/
theorem no_cross_user_leakage_witness :
    (∀ n ∈ ([otherUserRecord] : List Notification),
      n.user ≠ "user:default/john.doe") ∧
      getNotifications ([sampleRecord] ++ [otherUserRecord])
          "user:default/john.doe" none none none =
        getNotifications [sampleRecord] "user:default/john.doe" none none none :=
  ⟨by decide,
    (no_cross_user_leakage [sampleRecord] [] [otherUserRecord]
      "user:default/john.doe").2.1 (by decide)⟩

theorem unread_add_read_eq (st : List Notification) (u : String) :
    (st.filter fun n => n.user == u && n.read.isNone).length +
      (st.filter fun n => n.user == u && n.read.isSome).length =
      (st.filter fun n => n.user == u).length := by
  induction st with
  | nil => rfl
  | cons x rest ih =>
    simp only [List.filter_cons]
    rcases hread : x.read with _ | t <;> by_cases hu : x.user = u <;>
      simp [hread, hu] <;> omega

/-- C5: `getStatus(U)` is the pair of counts of U's records with null
respectively non-null read timestamp, and the two counts sum to the size of the
unfiltered listing `getNotifications(U, {read: undefined})`. -/
theorem status_listing_agreement (st : List Notification) (u : String) :
    getStatus st u =
      { unread := (st.filter fun n => n.user == u && n.read.isNone).length
        read := (st.filter fun n => n.user == u && n.read.isSome).length } ∧
      (getStatus st u).unread + (getStatus st u).read =
        (getNotifications st u none none none).length := by
  refine ⟨rfl, ?_⟩
  rw [getNotifications_no_filters]
  exact unread_add_read_eq st u

/-- C6: the `createdAfter` filter keeps exactly the user's records with
`created > T`; a record with `created == T` is excluded. -/
theorem created_after_boundary (st : List Notification) (u : String) (T : Nat)
    (n : Notification) :
    (n ∈ getNotifications st u none (some T) none ↔
      n ∈ st ∧ n.user = u ∧ T < n.created) ∧
    (n.created = T → n ∉ getNotifications st u none (some T) none) := by
  have hmem : n ∈ getNotifications st u none (some T) none ↔
      n ∈ st ∧ n.user = u ∧ T < n.created := by
    unfold getNotifications
    rw [List.mem_filter]
    simp [matchesRead, matchesCreatedAfter, and_assoc]
  refine ⟨hmem, ?_⟩
  intro hT hmem2
  obtain ⟨_, _, hlt⟩ := hmem.mp hmem2
  omega

/-- C6 witness: a record created exactly at the bound is excluded. -/
theorem created_after_boundary_witness :
    sampleRecord.created = 100 ∧
      sampleRecord ∉
        getNotifications [sampleRecord] "user:default/john.doe" none (some 100)
          none :=
  ⟨by decide,
    (created_after_boundary [sampleRecord] "user:default/john.doe" 100
      sampleRecord).2 (by decide)⟩

/-- A record whose title contains the search phrase, as in the test suite. -/
def findMeRecord : Notification :=
  { sampleRecord with
      id := "id-find"
      payload := { samplePayload with title := "Please find me" } }

/-- C8: the search filter is a case-insensitive substring match against title
and description; concretely, search `"find me"` keeps the record titled
`"Please find me"` and drops the one titled `"Notification 1"`, and the match
is insensitive to the case of the search phrase. -/
theorem search_semantics (st : List Notification) (u : String) (s : String)
    (n : Notification) :
    (n ∈ getNotifications st u none none (some s) ↔
      n ∈ st ∧ n.user = u ∧ matchesSearch s n.payload = true) ∧
    getNotifications [findMeRecord, sampleRecord] "user:default/john.doe"
        none none (some "find me") = [findMeRecord] ∧
    getNotifications [findMeRecord, sampleRecord] "user:default/john.doe"
        none none (some "FIND ME") = [findMeRecord] := by
  refine ⟨?_, by decide, by decide⟩
  unfold getNotifications
  rw [List.mem_filter]
  simp [matchesRead, matchesCreatedAfter, and_assoc]

theorem save_eq_append_of_scope_none (st : List Notification) (n : Notification)
    (now : Nat) (h : n.payload.scope = none) :
    saveNotification st n now = st ++ [n] := by
  simp [saveNotification, h]

theorem save_eq_append_of_no_existing (st : List Notification) (n : Notification)
    (now : Nat) (s0 : String) (h : n.payload.scope = some s0)
    (hf : getExistingScopeNotification st n.user n.origin s0 = none) :
    saveNotification st n now = st ++ [n] := by
  simp [saveNotification, h, hf]

theorem save_eq_restore_of_existing (st : List Notification) (n : Notification)
    (now : Nat) (s0 : String) (e : Notification) (h : n.payload.scope = some s0)
    (hf : getExistingScopeNotification st n.user n.origin s0 = some e) :
    saveNotification st n now = restoreExistingNotification st e.id n now := by
  simp [saveNotification, h, hf]

theorem idsOf_append (st : List Notification) (n : Notification) :
    idsOf (st ++ [n]) = idsOf st ++ [n.id] := by
  simp [idsOf]

theorem idsOf_restore (st : List Notification) (i : String) (inc : Notification)
    (now : Nat) : idsOf (restoreExistingNotification st i inc now) = idsOf st := by
  unfold idsOf restoreExistingNotification
  rw [List.map_map]
  apply List.map_congr_left
  intro a _
  simp only [Function.comp]
  split <;> rfl

theorem idsOf_save_subset (st : List Notification) (n : Notification)
    (now : Nat) :
    ∀ i ∈ idsOf (saveNotification st n now), i ∈ idsOf st ∨ i = n.id := by
  intro i hi
  rcases hs : n.payload.scope with _ | s0
  · rw [save_eq_append_of_scope_none st n now hs, idsOf_append] at hi
    rcases List.mem_append.mp hi with h | h
    · exact Or.inl h
    · exact Or.inr (List.mem_singleton.mp h)
  · rcases hf : getExistingScopeNotification st n.user n.origin s0 with _ | e
    · rw [save_eq_append_of_no_existing st n now s0 hs hf, idsOf_append] at hi
      rcases List.mem_append.mp hi with h | h
      · exact Or.inl h
      · exact Or.inr (List.mem_singleton.mp h)
    · rw [save_eq_restore_of_existing st n now s0 e hs hf, idsOf_restore] at hi
      exact Or.inl hi

theorem nodupIds_append (st : List Notification) (n : Notification)
    (hnd : NodupIds st) (hfresh : n.id ∉ idsOf st) : NodupIds (st ++ [n]) := by
  rw [NodupIds, idsOf_append, List.nodup_append]
  refine ⟨hnd, List.nodup_singleton _, ?_⟩
  intro a ha hb
  rw [List.mem_singleton] at hb
  subst hb
  exact hfresh ha

theorem save_nodupIds (st : List Notification) (n : Notification) (now : Nat)
    (hnd : NodupIds st) (hfresh : n.id ∉ idsOf st) :
    NodupIds (saveNotification st n now) := by
  rcases hs : n.payload.scope with _ | s0
  · rw [save_eq_append_of_scope_none st n now hs]
    exact nodupIds_append st n hnd hfresh
  · rcases hf : getExistingScopeNotification st n.user n.origin s0 with _ | e
    · rw [save_eq_append_of_no_existing st n now s0 hs hf]
      exact nodupIds_append st n hnd hfresh
    · rw [save_eq_restore_of_existing st n now s0 e hs hf, NodupIds, idsOf_restore]
      exact hnd

theorem mem_eq_of_nodupIds (st : List Notification) (hnd : NodupIds st)
    (r e : Notification) (hr : r ∈ st) (he : e ∈ st) (h : r.id = e.id) : r = e := by
  unfold NodupIds idsOf at hnd
  exact List.inj_on_of_nodup_map hnd hr he h

theorem restore_cons (x : Notification) (rest : List Notification) (i : String)
    (inc : Notification) (now : Nat) :
    restoreExistingNotification (x :: rest) i inc now =
      (if x.id == i then restoreRecord x inc now else x) ::
        restoreExistingNotification rest i inc now := rfl

theorem scopedFilter_cons (x : Notification) (l : List Notification)
    (u o s : String) :
    scopedFilter (x :: l) u o s =
      if x.user == u && x.origin == o && x.payload.scope == some s then
        x :: scopedFilter l u o s
      else scopedFilter l u o s :=
  List.filter_cons

theorem scopedFilter_restore_length (st : List Notification) (i : String)
    (inc : Notification) (now : Nat) (u o s : String)
    (h : ∀ r ∈ st, r.id = i →
      (inc.payload.scope == some s) = (r.payload.scope == some s)) :
    (scopedFilter (restoreExistingNotification st i inc now) u o s).length =
      (scopedFilter st u o s).length := by
  induction st with
  | nil => rfl
  | cons x rest ih =>
    have hrest : ∀ r ∈ rest, r.id = i →
        (inc.payload.scope == some s) = (r.payload.scope == some s) :=
      fun r hr => h r (List.mem_cons_of_mem x hr)
    have hih := ih hrest
    rw [restore_cons]
    by_cases hid : (x.id == i) = true
    · rw [if_pos hid]
      have hx := h x (List.mem_cons_self x rest) (eq_of_beq hid)
      have hpred : ((restoreRecord x inc now).user == u &&
          (restoreRecord x inc now).origin == o &&
          (restoreRecord x inc now).payload.scope == some s) =
          (x.user == u && x.origin == o && x.payload.scope == some s) := by
        show (x.user == u && x.origin == o && inc.payload.scope == some s) = _
        rw [hx]
      rw [scopedFilter_cons, scopedFilter_cons]
      by_cases hp : (x.user == u && x.origin == o && x.payload.scope == some s) = true
      · rw [if_pos (show _ = true by rw [hpred]; exact hp), if_pos hp,
          List.length_cons, List.length_cons, hih]
      · rw [if_neg (show ¬ _ = true by rw [hpred]; exact hp), if_neg hp, hih]
    · rw [if_neg hid, scopedFilter_cons, scopedFilter_cons]
      by_cases hp : (x.user == u && x.origin == o && x.payload.scope == some s) = true
      · rw [if_pos hp, if_pos hp, List.length_cons, List.length_cons, hih]
      · rw [if_neg hp, if_neg hp, hih]

theorem save_scopeUnique (st : List Notification) (n : Notification) (now : Nat)
    (hnd : NodupIds st) (hsu : ScopeUnique st) :
    ScopeUnique (saveNotification st n now) := by
  intro u o s
  rcases hs : n.payload.scope with _ | s0
  · rw [save_eq_append_of_scope_none st n now hs, scopedFilter,
      List.filter_append]
    have hone : (([n] : List Notification).filter fun x =>
        x.user == u && x.origin == o && x.payload.scope == some s) = [] := by
      simp [hs]
    rw [hone, List.append_nil]
    exact hsu u o s
  · rcases hf : getExistingScopeNotification st n.user n.origin s0 with _ | e
    · rw [save_eq_append_of_no_existing st n now s0 hs hf, scopedFilter,
        List.filter_append]
      by_cases hm : (n.user == u && n.origin == o && n.payload.scope == some s) = true
      · have h1 : (st.filter fun x =>
            x.user == u && x.origin == o && x.payload.scope == some s) = [] := by
          rw [List.filter_eq_nil_iff]
          intro a ha hpa
          rw [Bool.and_eq_true, Bool.and_eq_true] at hm hpa
          obtain ⟨⟨hmu, hmo⟩, hms⟩ := hm
          obtain ⟨⟨hau, hao⟩, has⟩ := hpa
          have hnone := List.find?_eq_none.mp hf a ha
          apply hnone
          rw [Bool.and_eq_true, Bool.and_eq_true]
          have hss : s0 = s := by
            have hms2 := eq_of_beq hms
            rw [hs] at hms2
            exact Option.some.inj hms2
          refine ⟨⟨?_, ?_⟩, ?_⟩
          · rw [eq_of_beq hau, eq_of_beq hmu]
            exact beq_self_eq_true u
          · rw [eq_of_beq hao, eq_of_beq hmo]
            exact beq_self_eq_true o
          · rw [eq_of_beq has, hss]
            exact beq_self_eq_true (some s)
        rw [h1, List.nil_append]
        simpa using List.length_filter_le _ [n]
      · have h2 : (([n] : List Notification).filter fun x =>
            x.user == u && x.origin == o && x.payload.scope == some s) = [] := by
          rw [List.filter_eq_nil_iff]
          intro a ha
          rw [List.mem_singleton] at ha
          subst ha
          exact fun hpa => hm hpa
        rw [h2, List.append_nil]
        exact hsu u o s
    · rw [save_eq_restore_of_existing st n now s0 e hs hf]
      unfold getExistingScopeNotification at hf
      have he : e ∈ st := List.mem_of_find?_eq_some hf
      have hep := @List.find?_some _
        (fun x => x.user == n.user && x.origin == n.origin &&
          x.payload.scope == some s0) e st hf
      rw [Bool.and_eq_true, Bool.and_eq_true] at hep
      obtain ⟨⟨heu, heo⟩, hesc⟩ := hep
      rw [scopedFilter_restore_length st e.id n now u o s]
      · exact hsu u o s
      · intro r hr hrid
        have hre : r = e := mem_eq_of_nodupIds st hnd r e hr he hrid
        subst hre
        rw [hs, eq_of_beq hesc]

theorem scopeUnique_nil : ScopeUnique ([] : List Notification) := by
  intro u o s
  simp [scopedFilter]

theorem applySaves_cons (st : List Notification) (p : Notification × Nat)
    (seq : List (Notification × Nat)) :
    applySaves st (p :: seq) = applySaves (saveNotification st p.1 p.2) seq := rfl

theorem applySaves_wf (seq : List (Notification × Nat)) :
    ∀ st : List Notification, NodupIds st → ScopeUnique st →
      (∀ p ∈ seq, p.1.id ∉ idsOf st) →
      (seq.map fun p => p.1.id).Nodup →
      NodupIds (applySaves st seq) ∧ ScopeUnique (applySaves st seq) := by
  induction seq with
  | nil =>
    intro st h1 h2 _ _
    exact ⟨h1, h2⟩
  | cons p rest ih =>
    intro st h1 h2 hfresh hnd
    rw [applySaves_cons]
    have hp : p.1.id ∉ idsOf st := hfresh p (List.mem_cons_self p rest)
    rw [List.map_cons, List.nodup_cons] at hnd
    apply ih
    · exact save_nodupIds st p.1 p.2 h1 hp
    · exact save_scopeUnique st p.1 p.2 h1 h2
    · intro q hq hmem
      rcases idsOf_save_subset st p.1 p.2 _ hmem with hin | heq
      · exact hfresh q (List.mem_cons_of_mem p hq) hin
      · apply hnd.1
        rw [← heq]
        exact List.mem_map_of_mem _ hq
    · exact hnd.2

/-- C1: starting from an empty store, after any sequence of `saveNotification`
calls with caller-supplied pairwise distinct ids, at most one live record
exists per (user, origin, non-null scope) triple; concretely, two saves with
identical (user, origin, scope) and different titles leave exactly one record
for that triple, carrying the second call's title, with `read` null even though
the first record was marked read in between; and records with a null scope are
never deduplicated: a null-scope save always appends, and the scope lookup
never returns a null-scope record. -/
theorem scope_dedup_invariant :
    (∀ seq : List (Notification × Nat), (seq.map fun p => p.1.id).Nodup →
      ∀ u o s, (scopedFilter (applySaves [] seq) u o s).length ≤ 1) ∧
    (∀ n1 n2 : Notification, ∀ tA tR tB : Nat, ∀ s : String,
      n1.user = n2.user → n1.origin = n2.origin →
      n1.payload.scope = some s → n2.payload.scope = some s →
      n1.payload.title ≠ n2.payload.title →
      ∃ R : Notification,
        scopedFilter
            (saveNotification
              (markRead (saveNotification [] n1 tA) [n1.id] n1.user tR) n2 tB)
            n1.user n1.origin s = [R] ∧
          R.payload.title = n2.payload.title ∧ R.read = none) ∧
    (∀ st n now, n.payload.scope = none →
      saveNotification st n now = st ++ [n]) ∧
    (∀ st u o s e, getExistingScopeNotification st u o s = some e →
      e.payload.scope = some s) := by
  refine ⟨?_, ?_, ?_, ?_⟩
  · intro seq hnd u o s
    have hwf := applySaves_wf seq [] (by simp [NodupIds, idsOf])
      scopeUnique_nil (by intro p hp; simp [idsOf]) hnd
    exact hwf.2 u o s
  · intro n1 n2 tA tR tB s hu ho h1s h2s _ht
    have hsave1 : saveNotification [] n1 tA = [n1] :=
      save_eq_append_of_no_existing [] n1 tA s h1s rfl
    have hmark : markRead [n1] [n1.id] n1.user tR =
        [{ n1 with read := some tR }] := by
      simp [markRead]
    have hfind2 : getExistingScopeNotification [{ n1 with read := some tR }]
        n2.user n2.origin s = some { n1 with read := some tR } := by
      unfold getExistingScopeNotification
      apply List.find?_cons_of_pos
      show (n1.user == n2.user && n1.origin == n2.origin &&
        n1.payload.scope == some s) = true
      rw [hu, ho, h1s]
      simp
    have hsave2 : saveNotification [{ n1 with read := some tR }] n2 tB =
        restoreExistingNotification [{ n1 with read := some tR }]
          ({ n1 with read := some tR } : Notification).id n2 tB :=
      save_eq_restore_of_existing _ n2 tB s _ h2s hfind2
    have hrest : restoreExistingNotification [{ n1 with read := some tR }]
        ({ n1 with read := some tR } : Notification).id n2 tB =
        [restoreRecord { n1 with read := some tR } n2 tB] := by
      rw [restore_cons, if_pos (beq_self_eq_true _)]
      rfl
    have hcondR :
        ((restoreRecord { n1 with read := some tR } n2 tB).user == n1.user &&
          (restoreRecord { n1 with read := some tR } n2 tB).origin == n1.origin &&
          (restoreRecord { n1 with read := some tR } n2 tB).payload.scope ==
            some s) = true := by
      show (n1.user == n1.user && n1.origin == n1.origin &&
        n2.payload.scope == some s) = true
      rw [h2s]
      simp
    refine ⟨restoreRecord { n1 with read := some tR } n2 tB, ?_, rfl, rfl⟩
    rw [hsave1, hmark, hsave2, hrest, scopedFilter_cons, if_pos hcondR]
    rfl
  · intro st n now h
    exact save_eq_append_of_scope_none st n now h
  · intro st u o s e hf
    unfold getExistingScopeNotification at hf
    have hp := @List.find?_some _
      (fun x => x.user == u && x.origin == o && x.payload.scope == some s)
      e st hf
    rw [Bool.and_eq_true] at hp
    exact eq_of_beq hp.2

/-- A scoped record ("task-1", title "Started") for the dedup scenario. -/
def scopedStarted : Notification :=
  { sampleRecord with
      id := "id-a"
      payload := { samplePayload with title := "Started", scope := some "task-1" } }

/-- A second save for the same (user, origin, scope) with a different title. -/
def scopedFinished : Notification :=
  { sampleRecord with
      id := "id-b"
      payload := { samplePayload with title := "Finished", scope := some "task-1" } }

/-- C1 witness: the invariant applied to a concrete two-save sequence with
identical (user, origin, scope) and distinct ids. -/
theorem scope_dedup_invariant_witness :
    ((([(scopedStarted, 1), (scopedFinished, 2)] :
        List (Notification × Nat)).map fun p => p.1.id).Nodup) ∧
      (scopedFilter (applySaves [] [(scopedStarted, 1), (scopedFinished, 2)])
        "user:default/john.doe" "plugin-test" "task-1").length ≤ 1 :=
  ⟨by decide,
    scope_dedup_invariant.1 [(scopedStarted, 1), (scopedFinished, 2)] (by decide)
      "user:default/john.doe" "plugin-test" "task-1"⟩
